import Mathlib

/-!
Verification of the xallocator fixed-block memory allocator
(doc/xallocator.md): the size-class router (`xmalloc`/`xfree`/`xrealloc`),
the single-size-class `Allocator` (Block Pool), the block-header codec and
the bounded registry of allocator instances.

Machine integers are modelled as `Nat`; a memory is a byte-addressed map
`Nat → Nat`; the back-reference stored in a block header is, following the
design notes, the owning pool's index in the registry rather than a raw
pointer.
-/

namespace XAlloc

/-- Width in bytes of one back-reference (`sizeof(Allocator*)`), the header
prepended to every block handed out by the router (doc/xallocator.md line
321: "adding an additional 4-bytes (typical `sizeof(Allocator*)`)"). -/
def headerSize : Nat := 4

/-- Doubling accumulator for `nexthigher`: starting from `acc`, double until
the value is at least `k` (or fuel runs out). -/
def nexthigherGo (k : Nat) : Nat → Nat → Nat
  | 0, acc => acc
  | fuel + 1, acc => if k ≤ acc then acc else nexthigherGo k fuel (2 * acc)

/-- Modelled from the spec: the `nexthigher<size_t>` template used by the
classification snippet (doc/xallocator.md line 407) but not present under
src; per the snippet's comment it finds "the next higher powers of two
value", i.e. rounds `k` up to the smallest power of two that is ≥ `k`. -/
def nexthigher (k : Nat) : Nat := nexthigherGo k k 1

/-- The size-class classification performed on an `xmalloc` request
(doc/xallocator.md lines 395-408): add `sizeof(Allocator*)` to the request,
special-case block sizes in (256,396] and (512,768], otherwise round up to
the next power of two. -/
def classify (size : Nat) : Nat :=
  if 256 < size + headerSize ∧ size + headerSize ≤ 396 then 396
  else if 512 < size + headerSize ∧ size + headerSize ≤ 768 then 768
  else nexthigher (size + headerSize)

/-- The configured size classes of the router: every power of two plus the
two tuned classes 396 and 768 (doc/xallocator.md lines 214, 392). -/
def ConfiguredSizeClass (c : Nat) : Prop := (∃ i, c = 2 ^ i) ∨ c = 396 ∨ c = 768

/-- Powers of two strictly above `2 ^ j` are at least `2 ^ (j + 1)`. -/
lemma pow_gt_pow {i j : Nat} (h : 2 ^ j < 2 ^ i) : 2 ^ (j + 1) ≤ 2 ^ i := by
  have hij : j < i := by
    by_contra hle
    exact absurd (Nat.pow_le_pow_right (by norm_num) (not_lt.mp hle)) (not_le.mpr h)
  exact Nat.pow_le_pow_right (by norm_num) hij

lemma nexthigherGo_le {k : Nat} (fuel : Nat) {i : Nat} (j : Nat)
    (hk : k ≤ 2 ^ i) (hacc : 2 ^ j ≤ 2 ^ i) : nexthigherGo k fuel (2 ^ j) ≤ 2 ^ i := by
  induction fuel generalizing j with
  | zero => simpa [nexthigherGo] using hacc
  | succ fuel ih =>
    rw [nexthigherGo]
    by_cases h : k ≤ 2 ^ j
    · simpa [h]
    · rw [if_neg h]
      have hpow : (2 : Nat) * 2 ^ j = 2 ^ (j + 1) := by ring
      rw [hpow]
      apply ih
      exact pow_gt_pow (lt_of_lt_of_le (lt_of_not_le h) hk)

lemma nexthigherGo_ge {k : Nat} (fuel acc : Nat) (h : k ≤ 2 ^ fuel * acc) :
    k ≤ nexthigherGo k fuel acc := by
  induction fuel generalizing acc with
  | zero => simpa [nexthigherGo] using h
  | succ fuel ih =>
    rw [nexthigherGo]
    by_cases hle : k ≤ acc
    · rw [if_pos hle]
      exact hle
    · rw [if_neg hle]
      apply ih
      calc k ≤ 2 ^ (fuel + 1) * acc := h
        _ = 2 ^ fuel * (2 * acc) := by ring

lemma nexthigherGo_pow {k : Nat} (fuel acc : Nat) (j : Nat) (hacc : acc = 2 ^ j) :
    ∃ m, nexthigherGo k fuel acc = 2 ^ m := by
  induction fuel generalizing acc j with
  | zero => exact ⟨j, by simpa [nexthigherGo] using hacc⟩
  | succ fuel ih =>
    rw [nexthigherGo]
    by_cases hle : k ≤ acc
    · exact ⟨j, by simpa [hle] using hacc⟩
    · rw [if_neg hle]
      exact ih (2 * acc) (j + 1) (by rw [hacc]; ring)

/-- `nexthigher k` is at least `k`. -/
lemma le_nexthigher (k : Nat) : k ≤ nexthigher k := by
  apply nexthigherGo_ge
  have := Nat.lt_two_pow k
  omega

/-- `nexthigher k` is a power of two. -/
lemma nexthigher_pow (k : Nat) : ∃ m, nexthigher k = 2 ^ m :=
  nexthigherGo_pow k 1 0 rfl

/-- `nexthigher k` is at most any power of two that is at least `k`. -/
lemma nexthigher_min {k i : Nat} (h : k ≤ 2 ^ i) : nexthigher k ≤ 2 ^ i := by
  have := nexthigherGo_le (k := k) k 0 h (Nat.one_le_two_pow)
  simpa [nexthigher] using this

/-- `classify N` is the least configured size class that is at least
`N + headerSize`. -/
lemma classify_isLeast (N : Nat) :
    IsLeast {c | ConfiguredSizeClass c ∧ N + headerSize ≤ c} (classify N) := by
  unfold classify
  by_cases h1 : 256 < N + headerSize ∧ N + headerSize ≤ 396
  · rw [if_pos h1]
    refine ⟨⟨Or.inr (Or.inl rfl), h1.2⟩, ?_⟩
    rintro c ⟨hc, hbc⟩
    rcases hc with ⟨i, rfl⟩ | rfl | rfl
    · have h256 : (256 : Nat) = 2 ^ 8 := by norm_num
      have : 2 ^ 8 < 2 ^ i := by omega
      have := pow_gt_pow this
      omega
    · exact le_refl _
    · omega
  · rw [if_neg h1]
    by_cases h2 : 512 < N + headerSize ∧ N + headerSize ≤ 768
    · rw [if_pos h2]
      refine ⟨⟨Or.inr (Or.inr rfl), h2.2⟩, ?_⟩
      rintro c ⟨hc, hbc⟩
      rcases hc with ⟨i, rfl⟩ | rfl | rfl
      · have : 2 ^ 9 < 2 ^ i := by norm_num; omega
        have := pow_gt_pow this
        omega
      · omega
      · exact le_refl _
    · rw [if_neg h2]
      obtain ⟨m, hm⟩ := nexthigher_pow (N + headerSize)
      refine ⟨⟨Or.inl ⟨m, hm⟩, le_nexthigher _⟩, ?_⟩
      rintro c ⟨hc, hbc⟩
      rcases hc with ⟨i, rfl⟩ | rfl | rfl
      · exact nexthigher_min hbc
      · have hle : N + headerSize ≤ 256 := by omega
        have : nexthigher (N + headerSize) ≤ 2 ^ 8 :=
          nexthigher_min (by omega)
        omega
      · have hle : N + headerSize ≤ 512 := by omega
        have : nexthigher (N + headerSize) ≤ 2 ^ 9 :=
          nexthigher_min (by omega)
        omega

/-- C1: for every requested size `N`, `classify N` is the smallest configured
size class ≥ `N + headerSize` (so the usable region past the header is at
least `N` bytes); `classify` is monotonically non-decreasing in `N`; block
sizes in (256,396] map to the 396 class and block sizes in (512,768] map to
the 768 class, all others to the next power of two. -/
theorem classify_least_monotone :
    (∀ N, IsLeast {c | ConfiguredSizeClass c ∧ N + headerSize ≤ c} (classify N)) ∧
    (∀ N, N + headerSize ≤ classify N) ∧
    (∀ M N, M ≤ N → classify M ≤ classify N) ∧
    (∀ N, 256 < N + headerSize → N + headerSize ≤ 396 → classify N = 396) ∧
    (∀ N, 512 < N + headerSize → N + headerSize ≤ 768 → classify N = 768) ∧
    (∀ N, ¬(256 < N + headerSize ∧ N + headerSize ≤ 396) →
      ¬(512 < N + headerSize ∧ N + headerSize ≤ 768) →
      classify N = nexthigher (N + headerSize)) :=
  ⟨classify_isLeast,
   fun N => (classify_isLeast N).1.2,
   fun M N h => (classify_isLeast M).2
     ⟨(classify_isLeast N).1.1, le_trans (by omega) (classify_isLeast N).1.2⟩,
   fun N h1 h2 => by unfold classify; rw [if_pos ⟨h1, h2⟩],
   fun N h1 h2 => by
     unfold classify
     rw [if_neg (by omega), if_pos ⟨h1, h2⟩],
   fun N h1 h2 => by unfold classify; rw [if_neg h1, if_neg h2]⟩

/-- C1 witness: the classification evaluated at concrete requests, with the
monotonicity and special-case hypotheses discharged at concrete inputs. -/
theorem classify_least_monotone_witness :
    (33 : Nat) ≤ 100 ∧ classify 33 ≤ classify 100 ∧ classify 300 = 396 ∧
    classify 600 = 768 ∧ classify 33 = 64 :=
  ⟨by decide, classify_least_monotone.2.2.1 33 100 (by decide),
   classify_least_monotone.2.2.2.1 300 (by decide) (by decide),
   classify_least_monotone.2.2.2.2.1 600 (by decide) (by decide),
   by decide⟩

/-- Byte-addressed raw memory: each address holds one byte value. -/
def Mem : Type := Nat → Nat

/-- Write the value `v` as four little-endian bytes at addresses
`addr .. addr + 3`. -/
def write4 (m : Mem) (addr v : Nat) : Mem := fun x =>
  if x = addr then v % 256
  else if x = addr + 1 then v / 256 % 256
  else if x = addr + 2 then v / 256 ^ 2 % 256
  else if x = addr + 3 then v / 256 ^ 3 % 256
  else m x

/-- Read four little-endian bytes starting at `addr` back into one value. -/
def read4 (m : Mem) (addr : Nat) : Nat :=
  m addr + 256 * m (addr + 1) + 256 ^ 2 * m (addr + 2) + 256 ^ 3 * m (addr + 3)

/-- Modelled from the spec: `set_block_allocator`, absent from the sources
(doc/xallocator.md line 335 only calls it) — write the back-reference to the
owning Block Pool (modelled, per the design notes, as the pool's registry
index) into the header-sized prefix of the raw block and return the client
pointer immediately past it. -/
def set_block_allocator (m : Mem) (block idx : Nat) : Mem × Nat :=
  (write4 m block idx, block + headerSize)

/-- Modelled from the spec: `get_block_allocator`, absent from the sources
(doc/xallocator.md line 349 only calls it) — read the owning Block Pool
back-reference out of the header that sits `headerSize` bytes before the
client pointer. -/
def get_block_allocator (m : Mem) (ptr : Nat) : Nat :=
  read4 m (ptr - headerSize)

/-- Modelled from the spec: `get_block_ptr`, absent from the sources
(doc/xallocator.md line 352 only calls it) — convert the client pointer back
into the original raw block pointer by subtracting the header size. -/
def get_block_ptr (ptr : Nat) : Nat := ptr - headerSize

/-- Reading four bytes just written recovers any value below `2 ^ 32`. -/
lemma read4_write4 (m : Mem) (addr v : Nat) (hv : v < 2 ^ 32) :
    read4 (write4 m addr v) addr = v := by
  have h1 : addr + 1 ≠ addr := by omega
  have h2 : addr + 2 ≠ addr := by omega
  have h2' : addr + 2 ≠ addr + 1 := by omega
  have h3 : addr + 3 ≠ addr := by omega
  have h3' : addr + 3 ≠ addr + 1 := by omega
  have h3'' : addr + 3 ≠ addr + 2 := by omega
  simp only [read4, write4, if_pos rfl, if_neg h1, if_neg h2, if_neg h2',
    if_neg h3, if_neg h3', if_neg h3'']
  norm_num
  omega

/-- Writes outside the four header bytes are invisible to `read4`/byte reads:
`write4` leaves every address other than `addr .. addr + 3` unchanged. -/
lemma write4_other (m : Mem) (addr v x : Nat)
    (hx : x < addr ∨ addr + 4 ≤ x) : write4 m addr v x = m x := by
  have h0 : x ≠ addr := by omega
  have h1 : x ≠ addr + 1 := by omega
  have h2 : x ≠ addr + 2 := by omega
  have h3 : x ≠ addr + 3 := by omega
  simp [write4, h0, h1, h2, h3]

/-- The three block-sourcing strategies of `Allocator`
(doc/xallocator.md lines 21-23). -/
inductive AMode where
  | heapBlocks
  | heapPool
  | staticPool
deriving DecidableEq

/-- Modelled from the spec: the state of one `Allocator` (Block Pool), whose
class implementation is absent from the sources — a free list of raw block
addresses kept as a stack, the block size, the optional pool bound and
region, and the usage counters surfaced by introspection. `heapCalls` counts
the calls this pool has made into the system-heap collaborator. -/
structure Allocator where
  blockSize : Nat
  maxObjects : Nat
  mode : AMode
  pPool : Nat
  poolIndex : Nat
  freeList : List Nat
  blockCnt : Nat
  blocksInUse : Nat
  allocations : Nat
  deallocations : Nat
  heapCalls : Nat
deriving DecidableEq

/-- The configuration error taxonomy surfaced at construction time. -/
inductive ConfigError where
  | blockSizeTooSmall
deriving DecidableEq

/-- Modelled from the spec: the `Allocator` constructor, absent from the
sources — `construct(blockSize, maxBlocks = 0, externalMemory = none)`:
a block size below one reference-field width is a configuration error;
`maxBlocks = 0` selects heap-growth mode; `maxBlocks > 0` without external
memory selects heap-pool mode (one immediate system-heap allocation, placed
at `heapBase`); `maxBlocks > 0` with external memory selects static-pool
mode, slicing the caller-supplied region with no system allocation ever. -/
def Allocator.construct (blockSize maxBlocks : Nat) (externalMemory : Option Nat)
    (heapBase : Nat) : Except ConfigError Allocator :=
  if blockSize < headerSize then .error .blockSizeTooSmall
  else
    match maxBlocks, externalMemory with
    | 0, _ => .ok ⟨blockSize, 0, .heapBlocks, 0, 0, [], 0, 0, 0, 0, 0⟩
    | m + 1, none => .ok ⟨blockSize, m + 1, .heapPool, heapBase, 0, [], 0, 0, 0, 0, 1⟩
    | m + 1, some base => .ok ⟨blockSize, m + 1, .staticPool, base, 0, [], 0, 0, 0, 0, 0⟩

/-- Result of `Allocator::Allocate`: either a raw block together with the
successor pool state and system-heap cursor, or the invocation of the
centralized fatal new-handler (`out_of_memory`), which is assumed never to
return control to the caller. -/
inductive AllocResult where
  | ok (block : Nat) (a : Allocator) (heapNext : Nat)
  | newHandler
deriving DecidableEq

/-- Modelled from the spec: `Allocator::Allocate`, absent from the sources —
pop the free list if non-empty; otherwise in heap-growth mode obtain one new
block-sized region from the system heap (modelled by the `heapNext` cursor),
and in the pool modes claim the next never-yet-issued slot if any remains;
a pool mode with no free block and no unissued slot invokes the new-handler
rather than returning an error value. -/
def Allocator.Allocate (a : Allocator) (heapNext : Nat) : AllocResult :=
  match a.freeList with
  | b :: rest =>
      .ok b
        { a with
          freeList := rest
          blocksInUse := a.blocksInUse + 1
          allocations := a.allocations + 1 }
        heapNext
  | [] =>
      match a.mode with
      | .heapBlocks =>
          .ok heapNext
            { a with
              blockCnt := a.blockCnt + 1
              blocksInUse := a.blocksInUse + 1
              allocations := a.allocations + 1
              heapCalls := a.heapCalls + 1 }
            (heapNext + a.blockSize)
      | _ =>
          if a.poolIndex < a.maxObjects then
            .ok (a.pPool + a.poolIndex * a.blockSize)
              { a with
                poolIndex := a.poolIndex + 1
                blockCnt := a.blockCnt + 1
                blocksInUse := a.blocksInUse + 1
                allocations := a.allocations + 1 }
              heapNext
          else .newHandler

/-- Modelled from the spec: `Allocator::Deallocate`, absent from the sources —
push the block onto the free list (the stack head) and update the usage
counters; the block's origin is never validated. -/
def Allocator.Deallocate (a : Allocator) (b : Nat) : Allocator :=
  { a with
    freeList := b :: a.freeList
    blocksInUse := a.blocksInUse - 1
    deallocations := a.deallocations + 1 }

/-- Modelled from the spec: `blockCount()` introspection — the number of
blocks currently outstanding from this pool (issued minus freed). -/
def Allocator.GetBlockCount (a : Allocator) : Nat := a.blocksInUse

/-- A successful `Allocate` always raises the outstanding count by one. -/
lemma Allocate_blocksInUse {a : Allocator} {hn b : Nat} {a' : Allocator} {hn' : Nat}
    (h : a.Allocate hn = .ok b a' hn') : a'.blocksInUse = a.blocksInUse + 1 := by
  unfold Allocator.Allocate at h
  rcases hfl : a.freeList with _ | ⟨x, rest⟩ <;> rw [hfl] at h
  · rcases hm : a.mode with _ | _ | _ <;> rw [hm] at h
    · cases h
      rfl
    all_goals
      by_cases hp : a.poolIndex < a.maxObjects
      · rw [if_pos hp] at h; cases h; rfl
      · rw [if_neg hp] at h; cases h
  · cases h
    rfl

/-- C2: a successful `Allocate`, immediately followed by `Deallocate` of the
returned block, followed by `Allocate` again returns the same underlying
block (free-list LIFO reuse); the outstanding-block count is the same before
and after the Deallocate/Allocate pair, the free list is restored, and no
new block is sourced (total block count, heap-call count and system-heap
cursor are all unchanged). -/
theorem allocate_deallocate_allocate_lifo (a : Allocator) (hn b : Nat)
    (a1 : Allocator) (hn1 : Nat) (h : a.Allocate hn = .ok b a1 hn1) :
    ∃ a2, (a1.Deallocate b).Allocate hn1 = .ok b a2 hn1 ∧
      a2.blocksInUse = a1.blocksInUse ∧
      a2.freeList = a1.freeList ∧
      a2.blockCnt = a1.blockCnt ∧
      a2.heapCalls = a1.heapCalls := by
  have hin : a1.blocksInUse = a.blocksInUse + 1 := Allocate_blocksInUse h
  refine ⟨_, rfl, ?_, rfl, rfl, rfl⟩
  show a1.blocksInUse - 1 + 1 = a1.blocksInUse
  omega

/-- C2 witness: the LIFO reuse theorem applied to a concrete heap-growth
pool whose first allocation sourced block 100 from the system heap. -/
theorem allocate_deallocate_allocate_lifo_witness :
    ∃ a2, ((⟨16, 0, .heapBlocks, 0, 0, [], 1, 1, 1, 0, 1⟩ :
        Allocator).Deallocate 100).Allocate 116 = .ok 100 a2 116 ∧
      a2.blocksInUse = (⟨16, 0, .heapBlocks, 0, 0, [], 1, 1, 1, 0, 1⟩ :
        Allocator).blocksInUse ∧
      a2.freeList = (⟨16, 0, .heapBlocks, 0, 0, [], 1, 1, 1, 0, 1⟩ :
        Allocator).freeList ∧
      a2.blockCnt = (⟨16, 0, .heapBlocks, 0, 0, [], 1, 1, 1, 0, 1⟩ :
        Allocator).blockCnt ∧
      a2.heapCalls = (⟨16, 0, .heapBlocks, 0, 0, [], 1, 1, 1, 0, 1⟩ :
        Allocator).heapCalls :=
  allocate_deallocate_allocate_lifo ⟨16, 0, .heapBlocks, 0, 0, [], 0, 0, 0, 0, 0⟩
    100 100 ⟨16, 0, .heapBlocks, 0, 0, [], 1, 1, 1, 0, 1⟩ 116 (by decide)

/-- C3: in a pool mode (heap-pool or static-pool), `Allocate` invokes the
centralized fatal new-handler exactly when the free list is empty and no
never-yet-issued slot remains; exhaustion is never reported as a normal
return value, and in every non-exhausted state `Allocate` succeeds without
invoking the hook (and without moving the system-heap cursor). -/
theorem allocate_pool_exhaustion (a : Allocator) (hn : Nat)
    (hmode : a.mode ≠ .heapBlocks) :
    (a.Allocate hn = .newHandler ↔ a.freeList = [] ∧ a.maxObjects ≤ a.poolIndex) ∧
    (¬(a.freeList = [] ∧ a.maxObjects ≤ a.poolIndex) →
      ∃ b a', a.Allocate hn = .ok b a' hn) := by
  unfold Allocator.Allocate
  rcases hfl : a.freeList with _ | ⟨x, rest⟩
  · rcases hm : a.mode with _ | _ | _
    · exact absurd hm hmode
    all_goals
      by_cases hp : a.poolIndex < a.maxObjects
      · rw [if_pos hp]
        exact ⟨by simp; omega, fun _ => ⟨_, _, rfl⟩⟩
      · rw [if_neg hp]
        exact ⟨by simp; omega, fun hc => absurd ⟨rfl, by omega⟩ hc⟩
  · exact ⟨by simp, fun _ => ⟨_, _, rfl⟩⟩

/-- C3 witness: a full static pool with an empty free list hits the
new-handler, and the same pool with one free block allocates normally. -/
theorem allocate_pool_exhaustion_witness :
    (⟨16, 1, .staticPool, 0, 1, [], 1, 1, 1, 0, 0⟩ : Allocator).Allocate 0 =
        .newHandler ∧
    ∃ b a', (⟨16, 1, .staticPool, 0, 1, [32], 1, 0, 1, 1, 0⟩ :
        Allocator).Allocate 0 = .ok b a' 0 :=
  ⟨(allocate_pool_exhaustion ⟨16, 1, .staticPool, 0, 1, [], 1, 1, 1, 0, 0⟩ 0
      (by decide)).1.mpr ⟨rfl, by decide⟩,
   (allocate_pool_exhaustion ⟨16, 1, .staticPool, 0, 1, [32], 1, 0, 1, 1, 0⟩ 0
      (by decide)).2 (by simp)⟩

/-- C7: constructing a Block Pool with a requested block size smaller than
one reference-field width raises a configuration error instead of
constructing a pool, so every successfully constructed Block Pool has a
block size at least the width of one link/reference field. -/
theorem construct_min_blockSize (blockSize maxBlocks : Nat)
    (externalMemory : Option Nat) (heapBase : Nat) :
    (blockSize < headerSize →
      Allocator.construct blockSize maxBlocks externalMemory heapBase =
        .error .blockSizeTooSmall) ∧
    ∀ a, Allocator.construct blockSize maxBlocks externalMemory heapBase = .ok a →
      headerSize ≤ a.blockSize := by
  constructor
  · intro h
    unfold Allocator.construct
    rw [if_pos h]
  · intro a ha
    unfold Allocator.construct at ha
    by_cases h : blockSize < headerSize
    · rw [if_pos h] at ha
      cases ha
    · rw [if_neg h] at ha
      rcases maxBlocks with _ | m <;> rcases externalMemory with _ | base <;>
        cases ha <;> (show headerSize ≤ blockSize; omega)

/-- C7 witness: block size 2 is rejected; block size 16 yields a pool whose
block size is at least the reference width. -/
theorem construct_min_blockSize_witness :
    Allocator.construct 2 0 none 0 = .error .blockSizeTooSmall ∧
    headerSize ≤ (⟨16, 0, .heapBlocks, 0, 0, [], 0, 0, 0, 0, 0⟩ :
      Allocator).blockSize :=
  ⟨(construct_min_blockSize 2 0 none 0).1 (by decide),
   (construct_min_blockSize 16 0 none 0).2
     ⟨16, 0, .heapBlocks, 0, 0, [], 0, 0, 0, 0, 0⟩ rfl⟩

/-- Reachable states of one Block Pool under interleaved `Allocate` and
accepted `Deallocate` operations, paired with the system-heap cursor. -/
inductive PoolReach (a0 : Allocator) (hn0 : Nat) : Allocator → Nat → Prop where
  | refl : PoolReach a0 hn0 a0 hn0
  | alloc {a : Allocator} {hn b : Nat} {a' : Allocator} {hn' : Nat} :
      PoolReach a0 hn0 a hn → a.Allocate hn = .ok b a' hn' →
      PoolReach a0 hn0 a' hn'
  | dealloc {a : Allocator} {hn b : Nat} :
      PoolReach a0 hn0 a hn → 1 ≤ a.blocksInUse →
      PoolReach a0 hn0 (a.Deallocate b) hn

/-- One successful `Allocate` on a static-pool state preserves the mode, the
configuration fields and the heap-call count, leaves the heap cursor alone,
and serves the block from the free list or from a never-yet-issued slot. -/
lemma static_Allocate_step {a : Allocator} {hn b : Nat} {a' : Allocator}
    {hn' : Nat} (hmode : a.mode = .staticPool)
    (h : a.Allocate hn = .ok b a' hn') :
    a'.mode = .staticPool ∧ a'.heapCalls = a.heapCalls ∧ a'.pPool = a.pPool ∧
      a'.maxObjects = a.maxObjects ∧ a'.blockSize = a.blockSize ∧ hn' = hn ∧
      (b ∈ a.freeList ∨ ∃ k, k < a.maxObjects ∧ b = a.pPool + k * a.blockSize) := by
  unfold Allocator.Allocate at h
  rcases hfl : a.freeList with _ | ⟨x, rest⟩ <;> rw [hfl] at h
  · rw [hmode] at h
    by_cases hp : a.poolIndex < a.maxObjects
    · rw [if_pos hp] at h
      cases h
      exact ⟨rfl, rfl, rfl, rfl, rfl, rfl, Or.inr ⟨a.poolIndex, hp, rfl⟩⟩
    · rw [if_neg hp] at h
      cases h
  · cases h
    exact ⟨hmode, rfl, rfl, rfl, rfl, rfl, Or.inl (List.mem_cons_self _ _)⟩

/-- C8: a static-pool Block Pool never calls the system-heap collaborator.
From construction over a caller-supplied region through every reachable
state: the heap-call count is zero and the system-heap cursor never moves;
every successful `Allocate` is served from the free list or from a
never-yet-issued slot of the supplied region and keeps the heap untouched;
and exceeding the configured block count triggers the fatal new-handler
path. -/
theorem staticPool_never_calls_heap (blockSize maxBlocks base heapBase hn0 : Nat)
    (a0 : Allocator)
    (h0 : Allocator.construct blockSize maxBlocks (some base) heapBase = .ok a0)
    (hm : 0 < maxBlocks) (a : Allocator) (hn : Nat)
    (hr : PoolReach a0 hn0 a hn) :
    a.heapCalls = 0 ∧ hn = hn0 ∧ a.mode = .staticPool ∧
    (∀ b a' hn', a.Allocate hn = .ok b a' hn' →
      hn' = hn ∧ a'.heapCalls = 0 ∧
      (b ∈ a.freeList ∨ ∃ k, k < a.maxObjects ∧ b = base + k * a.blockSize)) ∧
    (a.freeList = [] → a.maxObjects ≤ a.poolIndex → a.Allocate hn = .newHandler) := by
  have h0' : a0.heapCalls = 0 ∧ a0.mode = .staticPool ∧ a0.pPool = base := by
    unfold Allocator.construct at h0
    by_cases h : blockSize < headerSize
    · rw [if_pos h] at h0
      cases h0
    · rw [if_neg h] at h0
      rcases maxBlocks with _ | m
      · omega
      · cases h0
        exact ⟨rfl, rfl, rfl⟩
  have inv : a.heapCalls = 0 ∧ hn = hn0 ∧ a.mode = .staticPool ∧ a.pPool = base := by
    induction hr with
    | refl => exact ⟨h0'.1, rfl, h0'.2.1, h0'.2.2⟩
    | alloc hr hstep ih =>
      obtain ⟨hc, hh, hmo, hp⟩ := ih
      obtain ⟨m1, m2, m3, _, _, m6, _⟩ := static_Allocate_step hmo hstep
      exact ⟨by omega, by omega, m1, by rw [m3, hp]⟩
    | dealloc hr hin ih =>
      exact ⟨ih.1, ih.2.1, ih.2.2.1, ih.2.2.2⟩
  obtain ⟨hc, hh, hmo, hp⟩ := inv
  refine ⟨hc, hh, hmo, ?_, ?_⟩
  · intro b a' hn' hstep
    obtain ⟨_, m2, _, _, _, m6, m7⟩ := static_Allocate_step hmo hstep
    rw [hp] at m7
    exact ⟨m6, by omega, m7⟩
  · intro hfl hpi
    have := (allocate_pool_exhaustion a hn (by rw [hmo]; intro hcon; cases hcon)).1
    exact this.mpr ⟨hfl, hpi⟩

/-- C8 witness: a freshly constructed two-block static pool over region 500
is reachable at the start and already satisfies the never-calls-heap
contract there. -/
theorem staticPool_never_calls_heap_witness :
    (⟨16, 2, .staticPool, 500, 0, [], 0, 0, 0, 0, 0⟩ : Allocator).heapCalls = 0 ∧
    (77 : Nat) = 77 ∧
    (⟨16, 2, .staticPool, 500, 0, [], 0, 0, 0, 0, 0⟩ : Allocator).mode = .staticPool ∧
    (∀ b a' hn',
      (⟨16, 2, .staticPool, 500, 0, [], 0, 0, 0, 0, 0⟩ : Allocator).Allocate 77 =
        .ok b a' hn' →
      hn' = 77 ∧ a'.heapCalls = 0 ∧
      (b ∈ (⟨16, 2, .staticPool, 500, 0, [], 0, 0, 0, 0, 0⟩ : Allocator).freeList ∨
        ∃ k, k < (⟨16, 2, .staticPool, 500, 0, [], 0, 0, 0, 0, 0⟩ :
          Allocator).maxObjects ∧
          b = 500 + k * (⟨16, 2, .staticPool, 500, 0, [], 0, 0, 0, 0, 0⟩ :
            Allocator).blockSize)) ∧
    ((⟨16, 2, .staticPool, 500, 0, [], 0, 0, 0, 0, 0⟩ : Allocator).freeList = [] →
      (⟨16, 2, .staticPool, 500, 0, [], 0, 0, 0, 0, 0⟩ : Allocator).maxObjects ≤
        (⟨16, 2, .staticPool, 500, 0, [], 0, 0, 0, 0, 0⟩ : Allocator).poolIndex →
      (⟨16, 2, .staticPool, 500, 0, [], 0, 0, 0, 0, 0⟩ : Allocator).Allocate 77 =
        .newHandler) :=
  staticPool_never_calls_heap 16 2 500 0 77
    ⟨16, 2, .staticPool, 500, 0, [], 0, 0, 0, 0, 0⟩ rfl (by decide)
    ⟨16, 2, .staticPool, 500, 0, [], 0, 0, 0, 0, 0⟩ 77 PoolReach.refl

/-- Maximum number of `Allocator` instances dynamically created by the
router (doc/xallocator.md line 219). -/
def MAX_ALLOCATORS : Nat := 15

/-- The router's state: the bounded `_allocators` registry of lazily created
Block Pools, the raw byte memory, and the system-heap cursor from which
fresh heap regions are carved. -/
structure XState where
  allocators : List (Option Allocator)
  mem : Mem
  heapNext : Nat

/-- `xalloc_init` in heap-blocks mode (doc/xallocator.md lines 254-289): the
registry starts with every slot null and pools appear lazily on demand;
`heapBase` is where the system heap will place its first region. -/
def xalloc_init (heapBase : Nat) : XState :=
  ⟨List.replicate MAX_ALLOCATORS none, fun _ => 0, heapBase⟩

/-- Modelled from the spec: the registry search inside
`xallocator_get_allocator`, absent from the sources — find the index of the
live Block Pool handling the given block size. -/
def findAllocatorIdx : List (Option Allocator) → Nat → Option Nat
  | [], _ => none
  | none :: rest, bs => (findAllocatorIdx rest bs).map (· + 1)
  | some a :: rest, bs =>
      if a.blockSize = bs then some 0 else (findAllocatorIdx rest bs).map (· + 1)

/-- Modelled from the spec: the registry insertion inside
`xallocator_get_allocator`, absent from the sources — place a lazily created
Block Pool into the lowest free (null) slot, or fail when the bounded
registry is full. -/
def insertAllocator : List (Option Allocator) → Allocator →
    Option (List (Option Allocator) × Nat)
  | [], _ => none
  | none :: rest, a => some (some a :: rest, 0)
  | some x :: rest, a =>
      (insertAllocator rest a).map (fun r => (some x :: r.1, r.2 + 1))

/-- Modelled from the spec: `xallocator_get_allocator`, absent from the
sources — classify the request (doc/xallocator.md lines 395-408), locate the
registry entry whose pool handles that block size, or lazily create a new
heap-growth pool in the first free slot; a full registry is a
configuration/resource error, modelled as `none`. -/
def xallocator_get_allocator (s : XState) (size : Nat) : Option (Nat × XState) :=
  match findAllocatorIdx s.allocators (classify size) with
  | some i => some (i, s)
  | none =>
      match Allocator.construct (classify size) 0 none s.heapNext with
      | .error _ => none
      | .ok a =>
          match insertAllocator s.allocators a with
          | some r => some (r.2, { s with allocators := r.1 })
          | none => none

/-- `xmalloc` (doc/xallocator.md lines 324-337): obtain the allocator for the
requested size, allocate a raw block from it, stamp the owning pool's
back-reference into the block header via `set_block_allocator`, and hand the
caller the client pointer past the header. The fatal paths (new-handler,
full registry) are modelled as `none`. -/
def xmalloc (s : XState) (size : Nat) : Option (Nat × XState) :=
  match xallocator_get_allocator s size with
  | none => none
  | some (i, s1) =>
      match s1.allocators[i]? with
      | some (some a) =>
          match a.Allocate s1.heapNext with
          | .ok b a' hn' =>
              some ((set_block_allocator s1.mem b i).2,
                { allocators := s1.allocators.set i (some a')
                  mem := (set_block_allocator s1.mem b i).1
                  heapNext := hn' })
          | .newHandler => none
      | _ => none

/-- `xfree` (doc/xallocator.md lines 343-360): a null pointer returns
immediately; otherwise extract the owning pool back-reference from the
header, convert the client pointer back into the raw block pointer, and
deallocate the block into that pool. A back-reference that names no live
registry entry is caller misuse, undefined by design, modelled here as a
no-op. -/
def xfree (s : XState) (ptr : Nat) : XState :=
  if ptr = 0 then s
  else
    match s.allocators[get_block_allocator s.mem ptr]? with
    | some (some a) =>
        { s with
          allocators := s.allocators.set (get_block_allocator s.mem ptr)
            (some (a.Deallocate (get_block_ptr ptr))) }
    | _ => s

/-- The `memcpy` collaborator: copy `n` bytes from `src` to `dst`, regions
assumed non-overlapping as `memcpy` requires. -/
def memcpy (m : Mem) (dst src n : Nat) : Mem := fun x =>
  if dst ≤ x ∧ x < dst + n then m (src + (x - dst)) else m x

/-- Modelled from the spec: `xrealloc` (doc/xallocator.md lines 74-81),
whose body is absent from the sources — a null pointer behaves as `xmalloc`;
a new size of zero frees the block and yields the null pointer; otherwise
allocate a block for the new size, copy `min(oldUsableSize, newSize)` bytes
from the old block (the owning pool's block size minus the header), free the
old block, and return the new pointer. -/
def xrealloc (s : XState) (ptr newSize : Nat) : Option (Nat × XState) :=
  if ptr = 0 then xmalloc s newSize
  else if newSize = 0 then some (0, xfree s ptr)
  else
    match xmalloc s newSize with
    | none => none
    | some (q, s1) =>
        match s1.allocators[get_block_allocator s1.mem ptr]? with
        | some (some oldA) =>
            some (q, xfree
              { s1 with mem :=
                  memcpy s1.mem q ptr (min (oldA.blockSize - headerSize) newSize) }
              ptr)
        | _ => none

/-- `xalloc_stats` (doc/xallocator.md lines 83, 419-423): walk the registry
and report, for every live Block Pool, its block size, total block count and
blocks in use. -/
def xalloc_stats (s : XState) : List (Nat × Nat × Nat) :=
  s.allocators.filterMap
    (fun oa => oa.map (fun a => (a.blockSize, a.blockCnt, a.blocksInUse)))

/-- The `xalloc_stats` call as seen by the caller: the report it emits
together with the router state it hands back, which it never mutates. -/
def xalloc_statsRun (s : XState) : List (Nat × Nat × Nat) × XState :=
  (xalloc_stats s, s)

/-- The heap-blocks-mode `xalloc_destroy` loop (doc/xallocator.md lines
305-316): walk the registry and stop at the first null entry; every pool
visited is destroyed (collected in the second component) and its slot
nulled. -/
def destroyLoop : List (Option Allocator) → List (Option Allocator) × List Allocator
  | [] => ([], [])
  | none :: rest => (none :: rest, [])
  | some a :: rest =>
      (none :: (destroyLoop rest).1, a :: (destroyLoop rest).2)

/-- `xalloc_destroy` in heap-blocks mode: run the destroy loop over the
registry; the destroyed pools are returned alongside the final state. -/
def xalloc_destroy (s : XState) : XState × List Allocator :=
  ({ s with allocators := (destroyLoop s.allocators).1 },
   (destroyLoop s.allocators).2)

/-- A found registry index names a live pool of the searched block size. -/
lemma findAllocatorIdx_spec {l : List (Option Allocator)} {bs i : Nat}
    (h : findAllocatorIdx l bs = some i) :
    i < l.length ∧ ∃ a, l[i]? = some (some a) ∧ a.blockSize = bs := by
  induction l generalizing i with
  | nil => cases h
  | cons oa rest ih =>
    rcases oa with _ | a
    · rw [findAllocatorIdx] at h
      rcases Option.map_eq_some'.mp h with ⟨i0, hi0, hieq⟩
      obtain ⟨hlt, a, ha, hbs⟩ := ih hi0
      subst hieq
      exact ⟨by simpa using hlt, a, by simpa using ha, hbs⟩
    · rw [findAllocatorIdx] at h
      by_cases hbs : a.blockSize = bs
      · rw [if_pos hbs] at h
        cases h
        exact ⟨by simp, a, by simp, hbs⟩
      · rw [if_neg hbs] at h
        rcases Option.map_eq_some'.mp h with ⟨i0, hi0, hieq⟩
        obtain ⟨hlt, a', ha', hbs'⟩ := ih hi0
        subst hieq
        exact ⟨by simpa using hlt, a', by simpa using ha', hbs'⟩

/-- A successful insertion places the pool in the lowest free slot: the
returned index was null, every lower slot is occupied, and the new registry
is the old one with exactly that slot set. -/
lemma insertAllocator_spec {l : List (Option Allocator)} {a : Allocator}
    {r : List (Option Allocator) × Nat} (h : insertAllocator l a = some r) :
    r.2 < l.length ∧ l[r.2]? = some none ∧ r.1 = l.set r.2 (some a) ∧
      ∀ j, j < r.2 → ∃ x, l[j]? = some (some x) := by
  induction l generalizing r with
  | nil => cases h
  | cons oa rest ih =>
    rcases oa with _ | x
    · rw [insertAllocator] at h
      cases h
      exact ⟨by simp, by simp, by simp, fun j hj => absurd hj (by omega)⟩
    · rw [insertAllocator] at h
      rcases Option.map_eq_some'.mp h with ⟨r0, hr0, hreq⟩
      obtain ⟨hlt, hnull, hset, hlow⟩ := ih hr0
      subst hreq
      refine ⟨by simpa using hlt, by simpa using hnull, by simp [hset], ?_⟩
      rintro (_ | j) hj
      · exact ⟨x, by simp⟩
      · simpa using hlow j (by omega)

/-- Anatomy of `xallocator_get_allocator`: on success the returned index
names a live pool whose block size is the class of the request, in a
registry of unchanged length, with memory and heap cursor untouched. -/
lemma get_allocator_spec {s : XState} {size i : Nat} {s1 : XState}
    (h : xallocator_get_allocator s size = some (i, s1)) :
    i < s1.allocators.length ∧
      (∃ a, s1.allocators[i]? = some (some a) ∧ a.blockSize = classify size) ∧
      s1.allocators.length = s.allocators.length ∧
      s1.mem = s.mem ∧ s1.heapNext = s.heapNext := by
  unfold xallocator_get_allocator at h
  rcases hf : findAllocatorIdx s.allocators (classify size) with _ | i0 <;>
      rw [hf] at h
  · have hbs : ¬ classify size < headerSize := by
      have := (classify_isLeast size).1.2
      omega
    rw [Allocator.construct, if_neg hbs] at h
    rcases hins : insertAllocator s.allocators
        ⟨classify size, 0, .heapBlocks, 0, 0, [], 0, 0, 0, 0, 0⟩ with _ | r <;>
        simp only [hins] at h
    · cases h
    · obtain ⟨hlt, hnull, hset, _⟩ := insertAllocator_spec hins
      cases h
      refine ⟨?_, ⟨⟨classify size, 0, .heapBlocks, 0, 0, [], 0, 0, 0, 0, 0⟩,
        ?_, rfl⟩, ?_, rfl, rfl⟩
      · simpa [hset] using hlt
      · show r.1[r.2]? = _
        rw [hset]
        exact List.getElem?_set_eq_of_lt _ hlt
      · simp [hset]
  · cases h
    obtain ⟨hlt, a, ha, hbs⟩ := findAllocatorIdx_spec hf
    exact ⟨hlt, ⟨a, ha, hbs⟩, rfl, rfl, rfl⟩

/-- A successful `Allocate` leaves the configuration fields unchanged and
performs exactly one allocation. -/
lemma Allocate_fields {a : Allocator} {hn b : Nat} {a' : Allocator} {hn' : Nat}
    (h : a.Allocate hn = .ok b a' hn') :
    a'.blockSize = a.blockSize ∧ a'.maxObjects = a.maxObjects ∧
      a'.mode = a.mode ∧ a'.allocations = a.allocations + 1 ∧
      a'.deallocations = a.deallocations ∧ a'.blocksInUse = a.blocksInUse + 1 := by
  unfold Allocator.Allocate at h
  rcases hfl : a.freeList with _ | ⟨x, rest⟩ <;> rw [hfl] at h
  · rcases hm : a.mode with _ | _ | _ <;> rw [hm] at h
    · cases h
      exact ⟨rfl, rfl, rfl, rfl, rfl, rfl⟩
    all_goals
      by_cases hp : a.poolIndex < a.maxObjects
      · rw [if_pos hp] at h
        cases h
        exact ⟨rfl, rfl, rfl, rfl, rfl, rfl⟩
      · rw [if_neg hp] at h
        cases h
  · cases h
    exact ⟨rfl, rfl, rfl, rfl, rfl, rfl⟩

/-- Anatomy of a successful `xmalloc`: the returned pointer sits one header
past the raw block; the header bytes now decode to the owning pool's
registry index; that pool is live, handles the request's size class, and
has at least one outstanding block; the registry keeps its length; and all
memory outside the four header bytes is untouched. -/
lemma xmalloc_spec {s : XState} {size p : Nat} {s' : XState}
    (hlen : s.allocators.length < 2 ^ 32)
    (h : xmalloc s size = some (p, s')) :
    ∃ i a', i < s'.allocators.length ∧ headerSize ≤ p ∧
      get_block_allocator s'.mem p = i ∧
      s'.allocators[i]? = some (some a') ∧
      a'.blockSize = classify size ∧
      1 ≤ a'.blocksInUse ∧
      s'.allocators.length = s.allocators.length ∧
      (∀ x, x < p - headerSize ∨ p ≤ x → s'.mem x = s.mem x) := by
  unfold xmalloc at h
  split at h
  · cases h
  next i0 s1 hg =>
    split at h
    rotate_left
    · cases h
    next a ha =>
    obtain ⟨hlt, ⟨a0, ha0, hbs0⟩, hleneq, hmem, hhn⟩ := get_allocator_spec hg
    rw [ha] at ha0
    have haa : a = a0 := by
      cases ha0
      rfl
    subst haa
    split at h
    rotate_left
    · cases h
    next b a' hn' hal =>
      cases h
      obtain ⟨f1, _, _, _, _, f6⟩ := Allocate_fields hal
      refine ⟨i0, a', ?_, ?_, ?_, ?_, ?_, ?_, ?_, ?_⟩
      · simpa using hlt
      · show headerSize ≤ b + headerSize
        omega
      · show get_block_allocator (write4 s1.mem b i0) (b + headerSize) = i0
        unfold get_block_allocator
        have hb : b + headerSize - headerSize = b := by omega
        rw [hb]
        exact read4_write4 _ _ _ (by omega)
      · show (s1.allocators.set i0 (some a'))[i0]? = some (some a')
        exact List.getElem?_set_eq_of_lt _ hlt
      · rw [f1, hbs0]
      · omega
      · simpa using hleneq
      · intro x hx
        show write4 s1.mem b i0 x = s.mem x
        rw [← hmem]
        apply write4_other
        have hp : (set_block_allocator s1.mem b i0).2 = b + headerSize := rfl
        have hh : headerSize = 4 := rfl
        omega

/-- `xfree` on a non-null pointer whose header names a live pool routes the
raw block into exactly that pool's `Deallocate`, and changes nothing else. -/
lemma xfree_eq_of_lookup {s : XState} {p i : Nat} {a : Allocator}
    (hp : p ≠ 0) (hdec : get_block_allocator s.mem p = i)
    (hlook : s.allocators[i]? = some (some a)) :
    xfree s p =
      { s with allocators := s.allocators.set i (some (a.Deallocate (p - headerSize))) } := by
  unfold xfree
  rw [if_neg hp, hdec, hlook]
  rfl

/-- `xfree` never writes to memory. -/
lemma xfree_mem (s : XState) (p : Nat) : (xfree s p).mem = s.mem := by
  unfold xfree
  by_cases hp : p = 0
  · rw [if_pos hp]
  · rw [if_neg hp]
    split <;> rfl

/-- Reading inside the copied window returns the source byte. -/
lemma memcpy_in (m : Mem) (dst src n x : Nat) (h1 : dst ≤ x) (h2 : x < dst + n) :
    memcpy m dst src n x = m (src + (x - dst)) := by
  unfold memcpy
  rw [if_pos ⟨h1, h2⟩]

/-- Reading outside the copied window is unaffected. -/
lemma memcpy_other (m : Mem) (dst src n x : Nat) (h : x < dst ∨ dst + n ≤ x) :
    memcpy m dst src n x = m x := by
  unfold memcpy
  rw [if_neg (by omega)]

/-- `read4` only looks at the four bytes at `addr .. addr + 3`. -/
lemma read4_congr {m1 m2 : Mem} {addr : Nat}
    (h : ∀ j, j < 4 → m1 (addr + j) = m2 (addr + j)) :
    read4 m1 addr = read4 m2 addr := by
  unfold read4
  have h0 := h 0 (by omega)
  have h1 := h 1 (by omega)
  have h2 := h 2 (by omega)
  have h3 := h 3 (by omega)
  simp only [Nat.add_zero] at h0
  rw [h0, h1, h2, h3]

/-- C6: `xfree` applied to the null pointer is a no-op that returns the
router state unchanged — every pool, free list and statistics counter
intact; applied to a non-null pointer previously returned by `xmalloc`, it
decodes the header to recover the owning Block Pool (the live registry
entry holding the request's size class) and the true block start one header
below the client pointer, and calls exactly that pool's `Deallocate` on
that block, leaving every other registry entry and all of memory
unchanged. -/
theorem xfree_null_noop_and_routes :
    (∀ s, xfree s 0 = s) ∧
    (∀ s size p s', s.allocators.length < 2 ^ 32 →
      xmalloc s size = some (p, s') →
      ∃ i a', i < s'.allocators.length ∧
        get_block_allocator s'.mem p = i ∧
        get_block_ptr p = p - headerSize ∧
        s'.allocators[i]? = some (some a') ∧
        a'.blockSize = classify size ∧
        xfree s' p =
          { s' with allocators :=
              s'.allocators.set i (some (a'.Deallocate (p - headerSize))) }) := by
  constructor
  · intro s
    unfold xfree
    rw [if_pos rfl]
  · intro s size p s' hlen h
    obtain ⟨i, a', hlt, hp4, hdec, hlook, hbs, _, _, _⟩ := xmalloc_spec hlen h
    have hh : headerSize = 4 := rfl
    exact ⟨i, a', hlt, hdec, rfl, hlook, hbs,
      xfree_eq_of_lookup (by omega) hdec hlook⟩

/-- C6 witness: on the concrete initial router state, freeing the null
pointer is the identity, and freeing the pointer returned by a concrete
`xmalloc` routes the block back into the issuing pool. -/
theorem xfree_null_noop_and_routes_witness :
    xfree (xalloc_init 1000) 0 = xalloc_init 1000 ∧
    ∃ s' : XState, xmalloc (xalloc_init 1000) 20 = some (1004, s') ∧
      ∃ i a', i < s'.allocators.length ∧
        get_block_allocator s'.mem 1004 = i ∧
        get_block_ptr 1004 = 1004 - headerSize ∧
        s'.allocators[i]? = some (some a') ∧
        a'.blockSize = classify 20 ∧
        xfree s' 1004 =
          { s' with allocators :=
              s'.allocators.set i (some (a'.Deallocate (1004 - headerSize))) } :=
  ⟨xfree_null_noop_and_routes.1 (xalloc_init 1000),
   ⟨_, rfl, xfree_null_noop_and_routes.2 (xalloc_init 1000) 20 1004 _
      (by decide) rfl⟩⟩

/-- C4: the `xrealloc` contract. A null pointer behaves exactly as
`xmalloc`; a new size of zero frees the block and returns the null pointer
(the conventional heap-API tolerance); and for a live pointer and a nonzero
new size, when the inner `xmalloc` places the new block after the old one,
the call returns the new pointer with the first
`min(oldUsableSize, newSize)` bytes of the new region equal to the
corresponding bytes of the old region, and the old raw block pushed back
onto the free list of exactly the pool its header named. -/
theorem xrealloc_contract :
    (∀ s newSize, xrealloc s 0 newSize = xmalloc s newSize) ∧
    (∀ s ptr, ptr ≠ 0 → xrealloc s ptr 0 = some (0, xfree s ptr)) ∧
    (∀ s ptr newSize q s1 oldA,
      ptr ≠ 0 → newSize ≠ 0 → headerSize ≤ ptr → headerSize ≤ oldA.blockSize →
      s.allocators.length < 2 ^ 32 →
      xmalloc s newSize = some (q, s1) →
      s1.allocators[get_block_allocator s1.mem ptr]? = some (some oldA) →
      ptr - headerSize + oldA.blockSize ≤ q - headerSize →
      ∃ s2, xrealloc s ptr newSize = some (q, s2) ∧
        (∀ k, k < min (oldA.blockSize - headerSize) newSize →
          s2.mem (q + k) = s.mem (ptr + k)) ∧
        s2.allocators = s1.allocators.set (get_block_allocator s1.mem ptr)
          (some (oldA.Deallocate (ptr - headerSize))) ∧
        (ptr - headerSize) ∈ (oldA.Deallocate (ptr - headerSize)).freeList) := by
  refine ⟨?_, ?_, ?_⟩
  · intro s newSize
    unfold xrealloc
    rw [if_pos rfl]
  · intro s ptr hp
    unfold xrealloc
    rw [if_neg hp, if_pos rfl]
  · intro s ptr newSize q s1 oldA hp0 hn0 hp4 hbs4 hlen hmal hold hdisj
    obtain ⟨iN, aN, _, hq4, hdecN, hlookN, hbsN, _, _, hmemout⟩ := xmalloc_spec hlen hmal
    have hh : headerSize = 4 := rfl
    have hxr : xrealloc s ptr newSize =
        some (q, xfree
          { s1 with mem :=
              memcpy s1.mem q ptr (min (oldA.blockSize - headerSize) newSize) }
          ptr) := by
      unfold xrealloc
      rw [if_neg hp0, if_neg hn0]
      simp only [hmal, hold]
    have hdeceq : get_block_allocator
        (memcpy s1.mem q ptr (min (oldA.blockSize - headerSize) newSize)) ptr =
        get_block_allocator s1.mem ptr := by
      unfold get_block_allocator
      apply read4_congr
      intro j hj
      apply memcpy_other
      omega
    have hfree := xfree_eq_of_lookup (s :=
        { s1 with mem :=
            memcpy s1.mem q ptr (min (oldA.blockSize - headerSize) newSize) })
      hp0 hdeceq hold
    refine ⟨_, by rw [hxr, hfree], ?_, rfl, List.mem_cons_self _ _⟩
    intro k hk
    show memcpy s1.mem q ptr (min (oldA.blockSize - headerSize) newSize) (q + k) =
      s.mem (ptr + k)
    rw [memcpy_in _ _ _ _ _ (by omega) (by omega)]
    have hqk : q + k - q = k := by omega
    rw [hqk]
    exact hmemout (ptr + k) (by omega)

/-- C4 witness: a concrete run — allocate 24 bytes (32-class block at 1000),
then reallocate the returned pointer 1004 to 124 bytes (128-class block at
1032): the call returns 1036, preserves the old usable bytes, and pushes
raw block 1000 back onto the 32-class pool's free list. -/
theorem xrealloc_contract_witness :
    ∃ sA s1 : XState, ∃ oldA : Allocator,
      xmalloc (xalloc_init 1000) 24 = some (1004, sA) ∧
      xmalloc sA 124 = some (1036, s1) ∧
      s1.allocators[get_block_allocator s1.mem 1004]? = some (some oldA) ∧
      ∃ s2, xrealloc sA 1004 124 = some (1036, s2) ∧
        (∀ k, k < min (oldA.blockSize - headerSize) 124 →
          s2.mem (1036 + k) = sA.mem (1004 + k)) ∧
        s2.allocators = s1.allocators.set (get_block_allocator s1.mem 1004)
          (some (oldA.Deallocate (1004 - headerSize))) ∧
        (1004 - headerSize) ∈ (oldA.Deallocate (1004 - headerSize)).freeList :=
  ⟨_, _, _, rfl, rfl, rfl,
   xrealloc_contract.2.2 _ 1004 124 1036 _ _ (by decide) (by decide) (by decide)
     (by decide) (by decide) rfl rfl (by decide)⟩

/-- Case analysis of `xallocator_get_allocator`: either the pool was found
(state unchanged) or a fresh zero-counter pool was inserted into the lowest
free slot, every lower slot being occupied. -/
lemma get_allocator_cases {s : XState} {size i : Nat} {s1 : XState}
    (h : xallocator_get_allocator s size = some (i, s1)) :
    s1 = s ∨
    (∃ f : Allocator, s1.allocators = s.allocators.set i (some f) ∧
      s.allocators[i]? = some none ∧
      (∀ j, j < i → ∃ x, s.allocators[j]? = some (some x)) ∧
      f.allocations = 0 ∧ f.deallocations = 0 ∧ f.blocksInUse = 0) := by
  unfold xallocator_get_allocator at h
  rcases hf : findAllocatorIdx s.allocators (classify size) with _ | i0 <;>
      rw [hf] at h
  · have hbs : ¬ classify size < headerSize := by
      have := (classify_isLeast size).1.2
      omega
    rw [Allocator.construct, if_neg hbs] at h
    rcases hins : insertAllocator s.allocators
        ⟨classify size, 0, .heapBlocks, 0, 0, [], 0, 0, 0, 0, 0⟩ with _ | r <;>
        simp only [hins] at h
    · cases h
    · obtain ⟨hlt, hnull, hset, hlow⟩ := insertAllocator_spec hins
      cases h
      exact Or.inr ⟨_, hset, hnull, hlow, rfl, rfl, rfl⟩
  · cases h
    exact Or.inl rfl

/-- How one `xmalloc` changes the registry, slot by slot: a slot is
unchanged, or holds its previous pool advanced by one `Allocate`, or holds
a freshly constructed zero-counter pool advanced by its first `Allocate`. -/
lemma xmalloc_registry {s : XState} {size p : Nat} {s' : XState}
    (h : xmalloc s size = some (p, s')) (j : Nat) :
    s'.allocators[j]? = s.allocators[j]? ∨
    (∃ a a' : Allocator, ∃ b hn hn' : Nat, s.allocators[j]? = some (some a) ∧
      s'.allocators[j]? = some (some a') ∧ a.Allocate hn = .ok b a' hn') ∨
    (∃ f a' : Allocator, ∃ b hn hn' : Nat, f.allocations = 0 ∧
      f.deallocations = 0 ∧ f.blocksInUse = 0 ∧
      s'.allocators[j]? = some (some a') ∧ f.Allocate hn = .ok b a' hn') := by
  unfold xmalloc at h
  split at h
  · cases h
  next i0 s1 hg =>
    split at h
    rotate_left
    · cases h
    next a ha =>
    split at h
    rotate_left
    · cases h
    next b a' hn' hal =>
      cases h
      have hi0len : i0 < s1.allocators.length :=
        (List.getElem?_eq_some_iff.mp ha).1
      by_cases hj : j = i0
      · subst hj
        have hset : (s1.allocators.set j (some a'))[j]? = some (some a') :=
          List.getElem?_set_eq_of_lt _ hi0len
        rcases get_allocator_cases hg with rfl | ⟨f, hfs, hnull, _, hc1, hc2, hc3⟩
        · exact Or.inr (Or.inl ⟨a, a', b, s1.heapNext, hn', ha, hset, hal⟩)
        · rw [hfs] at ha
          rw [List.getElem?_set_eq_of_lt] at ha
          · cases ha
            exact Or.inr (Or.inr ⟨a, a', b, s1.heapNext, hn', hc1, hc2, hc3, hset, hal⟩)
          · rw [hfs] at hi0len
            simpa using hi0len
      · left
        show (s1.allocators.set i0 (some a'))[j]? = s.allocators[j]?
        rw [List.getElem?_set_ne (fun he => hj he.symm)]
        rcases get_allocator_cases hg with rfl | ⟨f, hfs, _, _, _, _, _⟩
        · rfl
        · rw [hfs, List.getElem?_set_ne (fun he => hj he.symm)]

/-- The per-pool counter invariant: outstanding blocks equal allocations
issued minus deallocations accepted. -/
def CountersOk (s : XState) : Prop :=
  ∀ i : Nat, ∀ a : Allocator, s.allocators[i]? = some (some a) →
    a.deallocations ≤ a.allocations ∧
    a.blocksInUse = a.allocations - a.deallocations

/-- `xmalloc` preserves the counter invariant. -/
lemma CountersOk_malloc {s : XState} {size p : Nat} {s' : XState}
    (hc : CountersOk s) (h : xmalloc s size = some (p, s')) : CountersOk s' := by
  intro j a' hj
  rcases xmalloc_registry h j with heq |
      ⟨a, a2, b, hn, hn', ha, ha', hal⟩ | ⟨f, a2, b, hn, hn', h1, h2, h3, ha', hal⟩
  · rw [heq] at hj
    exact hc j a' hj
  · rw [ha'] at hj
    cases hj
    obtain ⟨_, _, _, f4, f5, f6⟩ := Allocate_fields hal
    obtain ⟨g1, g2⟩ := hc j a ha
    constructor <;> omega
  · rw [ha'] at hj
    cases hj
    obtain ⟨_, _, _, f4, f5, f6⟩ := Allocate_fields hal
    constructor <;> omega

/-- An accepted `xfree` preserves the counter invariant. -/
lemma CountersOk_free {s : XState} {p : Nat} (hc : CountersOk s)
    (hacc : ∀ a : Allocator,
      s.allocators[get_block_allocator s.mem p]? = some (some a) →
      1 ≤ a.blocksInUse) : CountersOk (xfree s p) := by
  intro j a' hj
  unfold xfree at hj
  by_cases hp : p = 0
  · rw [if_pos hp] at hj
    exact hc j a' hj
  · rw [if_neg hp] at hj
    split at hj
    next a hl =>
      by_cases hji : j = get_block_allocator s.mem p
      · subst hji
        rw [List.getElem?_set_eq_of_lt _ (List.getElem?_eq_some_iff.mp hl).1] at hj
        cases hj
        obtain ⟨g1, g2⟩ := hc _ a hl
        have hge := hacc a hl
        have e1 : (a.Deallocate (get_block_ptr p)).allocations = a.allocations := rfl
        have e2 : (a.Deallocate (get_block_ptr p)).deallocations =
          a.deallocations + 1 := rfl
        have e3 : (a.Deallocate (get_block_ptr p)).blocksInUse =
          a.blocksInUse - 1 := rfl
        constructor <;> omega
      · rw [List.getElem?_set_ne (fun he => hji he.symm)] at hj
        exact hc j a' hj
    next => exact hc j a' hj

/-- Router-level reachability: every interleaving of successful `xmalloc`
calls and accepted `xfree` calls starting from a given state. An `xfree` is
accepted when the pool its header byte names still has an outstanding block
(wild and doubled frees are caller misuse, undefined by design). -/
inductive XReach (s0 : XState) : XState → Prop where
  | refl : XReach s0 s0
  | malloc {s : XState} {n q : Nat} {s' : XState} :
      XReach s0 s → xmalloc s n = some (q, s') → XReach s0 s'
  | free {s : XState} {q : Nat} :
      XReach s0 s →
      (∀ a : Allocator,
        s.allocators[get_block_allocator s.mem q]? = some (some a) →
        1 ≤ a.blocksInUse) →
      XReach s0 (xfree s q)

/-- A registry whose pools all satisfy the counter identity reports the
blocks-in-use column as allocations minus deallocations. -/
lemma stats_filterMap_congr (l : List (Option Allocator))
    (h : ∀ i : Nat, ∀ a : Allocator, l[i]? = some (some a) →
      a.blocksInUse = a.allocations - a.deallocations) :
    l.filterMap (fun oa => oa.map (fun a => (a.blockSize, a.blockCnt, a.blocksInUse))) =
      l.filterMap (fun oa =>
        oa.map (fun a => (a.blockSize, a.blockCnt, a.allocations - a.deallocations))) := by
  induction l with
  | nil => rfl
  | cons oa rest ih =>
    have hrest := ih (fun i a hi => h (i + 1) a (by simpa using hi))
    rcases oa with _ | a
    · simpa using hrest
    · have ha := h 0 a (by simp)
      simp only [List.filterMap_cons, Option.map_some']
      rw [hrest, ha]

/-- C9: over every interleaved sequence of router allocations and accepted
frees, each Block Pool's outstanding-block count — the value reported by
`blockCount()` and in the blocks-in-use column of `xalloc_stats` — equals
the allocations issued minus the deallocations accepted for that size
class; and the statistics call hands the state back unchanged, being a
read-only introspection surface. -/
theorem stats_outstanding_counts (heapBase : Nat) (s : XState)
    (hr : XReach (xalloc_init heapBase) s) :
    (∀ i : Nat, ∀ a : Allocator, s.allocators[i]? = some (some a) →
      a.deallocations ≤ a.allocations ∧
      a.GetBlockCount = a.allocations - a.deallocations) ∧
    xalloc_stats s = s.allocators.filterMap (fun oa =>
      oa.map (fun a => (a.blockSize, a.blockCnt, a.allocations - a.deallocations))) ∧
    (xalloc_statsRun s).2 = s := by
  have hinv : CountersOk s := by
    induction hr with
    | refl =>
      intro i a hi
      have h2 : (List.replicate MAX_ALLOCATORS (none : Option Allocator))[i]? =
          some (some a) := hi
      rw [List.getElem?_replicate] at h2
      by_cases hlt : i < MAX_ALLOCATORS
      · rw [if_pos hlt] at h2
        cases h2
      · rw [if_neg hlt] at h2
        cases h2
    | malloc hr hstep ih => exact CountersOk_malloc ih hstep
    | free hr hacc ih => exact CountersOk_free ih hacc
  exact ⟨fun i a hi => hinv i a hi,
    stats_filterMap_congr s.allocators (fun i a hi => (hinv i a hi).2), rfl⟩

/-- C9 witness: the counter identity at the concrete state reached by one
allocation from the initial router state. -/
theorem stats_outstanding_counts_witness :
    ∃ s : XState, xmalloc (xalloc_init 1000) 20 = some (1004, s) ∧
      ((∀ i : Nat, ∀ a : Allocator, s.allocators[i]? = some (some a) →
        a.deallocations ≤ a.allocations ∧
        a.GetBlockCount = a.allocations - a.deallocations) ∧
      xalloc_stats s = s.allocators.filterMap (fun oa =>
        oa.map (fun a => (a.blockSize, a.blockCnt, a.allocations - a.deallocations))) ∧
      (xalloc_statsRun s).2 = s) :=
  ⟨_, rfl, stats_outstanding_counts 1000 _
    (XReach.malloc XReach.refl (rfl :
      xmalloc (xalloc_init 1000) 20 = some (1004, _)))⟩

/-- The registry forms a contiguous front-packed prefix: beyond any null
slot, every slot is null — equivalently, every non-null entry precedes
every null entry. -/
def FrontPacked (l : List (Option Allocator)) : Prop :=
  ∀ i j : Nat, i ≤ j → j < l.length → l[i]? = some none → l[j]? = some none

/-- Setting a slot to a live pool keeps the registry front-packed, provided
the slot was already occupied or is the lowest free slot. -/
lemma FrontPacked_set {l : List (Option Allocator)} {i : Nat} {x : Allocator}
    (hfp : FrontPacked l)
    (hcase : (∃ b, l[i]? = some (some b)) ∨
      (l[i]? = some none ∧ ∀ j, j < i → ∃ b, l[j]? = some (some b))) :
    FrontPacked (l.set i (some x)) := by
  have hilen : i < l.length := by
    rcases hcase with ⟨b, hb⟩ | ⟨hb, _⟩ <;>
      exact (List.getElem?_eq_some_iff.mp hb).1
  intro i' j' hij hjlen hnone
  rw [List.length_set] at hjlen
  have hne : i' ≠ i := by
    intro he
    subst he
    rw [List.getElem?_set_eq_of_lt _ hilen] at hnone
    cases hnone
  rw [List.getElem?_set_ne (fun he => hne he.symm)] at hnone
  have hjne : j' ≠ i := by
    intro he
    subst he
    rcases hcase with ⟨b, hb⟩ | ⟨hb, hlow⟩
    · have := hfp i' j' hij hjlen hnone
      rw [this] at hb
      cases hb
    · have hi'lt : i' < j' := lt_of_le_of_ne hij hne
      obtain ⟨b, hb⟩ := hlow i' hi'lt
      rw [hb] at hnone
      cases hnone
  rw [List.getElem?_set_ne (fun he => hjne he.symm)]
  exact hfp i' j' hij hjlen hnone

/-- `xmalloc` keeps the registry front-packed: a lazily created pool goes
into the lowest free slot, and the pool that served the request stays in
its occupied slot. -/
lemma FrontPacked_malloc {s : XState} {size p : Nat} {s' : XState}
    (hfp : FrontPacked s.allocators) (h : xmalloc s size = some (p, s')) :
    FrontPacked s'.allocators := by
  unfold xmalloc at h
  split at h
  · cases h
  next i0 s1 hg =>
    split at h
    rotate_left
    · cases h
    next a ha =>
    split at h
    rotate_left
    · cases h
    next b a' hn' hal =>
      cases h
      show FrontPacked (s1.allocators.set i0 (some a'))
      rcases get_allocator_cases hg with rfl | ⟨f, hfs, hnull, hlow, _, _, _⟩
      · exact FrontPacked_set hfp (Or.inl ⟨a, ha⟩)
      · have hfp1 : FrontPacked s1.allocators := by
          rw [hfs]
          exact FrontPacked_set hfp (Or.inr ⟨hnull, hlow⟩)
        exact FrontPacked_set hfp1 (Or.inl ⟨a, ha⟩)

/-- `xfree` keeps the registry front-packed: it only replaces the contents
of an already occupied slot. -/
lemma FrontPacked_free {s : XState} {p : Nat}
    (hfp : FrontPacked s.allocators) : FrontPacked (xfree s p).allocators := by
  unfold xfree
  by_cases hp : p = 0
  · rw [if_pos hp]
    exact hfp
  · rw [if_neg hp]
    split
    next a hl => exact FrontPacked_set hfp (Or.inl ⟨a, hl⟩)
    next => exact hfp

/-- Dropping the head of a front-packed registry keeps it front-packed. -/
lemma FrontPacked_tail {oa : Option Allocator} {rest : List (Option Allocator)}
    (h : FrontPacked (oa :: rest)) : FrontPacked rest := by
  intro i j hij hj hnone
  have := h (i + 1) (j + 1) (by omega) (by simpa using hj) (by simpa using hnone)
  simpa using this

/-- On a front-packed registry, the break-at-first-null destroy loop nulls
every slot and collects every live pool. -/
lemma destroyLoop_spec {l : List (Option Allocator)} (h : FrontPacked l) :
    (∀ oa ∈ (destroyLoop l).1, oa = none) ∧
    (∀ a : Allocator, some a ∈ l → a ∈ (destroyLoop l).2) := by
  induction l with
  | nil => exact ⟨by simp [destroyLoop], by simp⟩
  | cons oa rest ih =>
    rcases oa with _ | a
    · rw [destroyLoop]
      have hrest : ∀ x ∈ rest, x = (none : Option Allocator) := by
        intro x hx
        obtain ⟨i, hi⟩ := (List.mem_iff_getElem.mp hx)
        obtain ⟨hilen, hieq⟩ := hi
        have hidx : rest[i]? = some x := by
          rw [List.getElem?_eq_getElem hilen, hieq]
        have hno := h 0 (i + 1) (by omega) (by simpa using hilen) (by simp)
        have : rest[i]? = some none := by simpa using hno
        rw [hidx] at this
        cases this
        rfl
      constructor
      · intro x hx
        rcases List.mem_cons.mp hx with rfl | hx'
        · rfl
        · exact hrest x hx'
      · intro a ha
        rcases List.mem_cons.mp ha with he | ha'
        · cases he
        · have := hrest _ ha'
          cases this
    · rw [destroyLoop]
      have ihh := ih (FrontPacked_tail h)
      constructor
      · intro x hx
        rcases List.mem_cons.mp hx with rfl | hx'
        · rfl
        · exact ihh.1 x hx'
      · intro c hc
        rcases List.mem_cons.mp hc with he | hc'
        · cases he
          exact List.mem_cons_self _ _
        · exact List.mem_cons.mpr (Or.inr (ihh.2 c hc'))

/-- C10: in heap-growth mode the registry of Block Pools always forms a
contiguous prefix of the allocator array — lazily created pools are placed
at the lowest free index, so in every reachable state every non-null entry
precedes every null entry — and consequently the shutdown loop of
`xalloc_destroy`, which stops scanning at the first null entry, destroys
every Block Pool in the registry and nulls its slot. -/
theorem registry_prefix_destroy_all (heapBase : Nat) (s : XState)
    (hr : XReach (xalloc_init heapBase) s) :
    FrontPacked s.allocators ∧
    (∀ oa ∈ (xalloc_destroy s).1.allocators, oa = none) ∧
    (∀ a : Allocator, some a ∈ s.allocators → a ∈ (xalloc_destroy s).2) := by
  have hfp : FrontPacked s.allocators := by
    induction hr with
    | refl =>
      intro i j hij hjlen hnone
      show (List.replicate MAX_ALLOCATORS (none : Option Allocator))[j]? = some none
      rw [List.getElem?_replicate]
      have : j < MAX_ALLOCATORS := by simpa using hjlen
      rw [if_pos this]
    | malloc hr hstep ih => exact FrontPacked_malloc ih hstep
    | free hr hacc ih => exact FrontPacked_free ih
  obtain ⟨h1, h2⟩ := destroyLoop_spec hfp
  exact ⟨hfp, h1, h2⟩

/-- C10 witness: the prefix invariant and the complete teardown at the
concrete state reached by one allocation from the initial router state. -/
theorem registry_prefix_destroy_all_witness :
    ∃ s : XState, xmalloc (xalloc_init 1000) 20 = some (1004, s) ∧
      (FrontPacked s.allocators ∧
      (∀ oa ∈ (xalloc_destroy s).1.allocators, oa = none) ∧
      (∀ a : Allocator, some a ∈ s.allocators → a ∈ (xalloc_destroy s).2)) :=
  ⟨_, rfl, registry_prefix_destroy_all 1000 _
    (XReach.malloc XReach.refl (rfl :
      xmalloc (xalloc_init 1000) 20 = some (1004, _)))⟩

/-- C5: the header codec round-trips. The header is exactly one
back-reference wide (4 bytes); `set_block_allocator` writes the owning-pool
back-reference into the header-sized prefix of the raw block and returns
the pointer exactly one header past the block start; decoding the returned
client pointer recovers exactly the back-reference and the original block
start; and consequently freeing a pointer returned by `xmalloc` routes the
raw block back into exactly the pool that issued it. -/
theorem header_codec_roundtrip :
    headerSize = 4 ∧
    (∀ m : Mem, ∀ b idx : Nat, idx < 2 ^ 32 →
      (set_block_allocator m b idx).2 = b + headerSize ∧
      get_block_allocator (set_block_allocator m b idx).1
        (set_block_allocator m b idx).2 = idx ∧
      get_block_ptr (set_block_allocator m b idx).2 = b) ∧
    (∀ s : XState, ∀ size p : Nat, ∀ s' : XState,
      s.allocators.length < 2 ^ 32 → xmalloc s size = some (p, s') →
      ∃ i a', get_block_allocator s'.mem p = i ∧
        s'.allocators[i]? = some (some a') ∧
        (xfree s' p).allocators[i]? =
          some (some (a'.Deallocate (p - headerSize)))) := by
  refine ⟨rfl, ?_, ?_⟩
  · intro m b idx hidx
    have hb : b + headerSize - headerSize = b := by omega
    refine ⟨rfl, ?_, ?_⟩
    · show read4 (write4 m b idx) (b + headerSize - headerSize) = idx
      rw [hb]
      exact read4_write4 m b idx hidx
    · show b + headerSize - headerSize = b
      exact hb
  · intro s size p s' hlen h
    obtain ⟨i, a', hlt, hp4, hdec, hlook, _, _, _, _⟩ := xmalloc_spec hlen h
    have hh : headerSize = 4 := rfl
    refine ⟨i, a', hdec, hlook, ?_⟩
    rw [xfree_eq_of_lookup (by omega) hdec hlook]
    exact List.getElem?_set_eq_of_lt _ hlt

/-- C5 witness: encoding back-reference 7 at block 1000 and decoding it
back, plus the concrete free-after-malloc routing on the initial state. -/
theorem header_codec_roundtrip_witness :
    ((set_block_allocator (fun _ => 0) 1000 7).2 = 1000 + headerSize ∧
      get_block_allocator (set_block_allocator (fun _ => 0) 1000 7).1
        (set_block_allocator (fun _ => 0) 1000 7).2 = 7 ∧
      get_block_ptr (set_block_allocator (fun _ => 0) 1000 7).2 = 1000) ∧
    ∃ s' : XState, xmalloc (xalloc_init 1000) 20 = some (1004, s') ∧
      ∃ i a', get_block_allocator s'.mem 1004 = i ∧
        s'.allocators[i]? = some (some a') ∧
        (xfree s' 1004).allocators[i]? =
          some (some (a'.Deallocate (1004 - headerSize))) :=
  ⟨header_codec_roundtrip.2.1 (fun _ => 0) 1000 7 (by decide),
   ⟨_, rfl, header_codec_roundtrip.2.2 (xalloc_init 1000) 20 1004 _
     (by decide) rfl⟩⟩

end XAlloc
